import Mathlib

/-!
Verification of the installer/updater subsystem of the obsidian-mcp-tools
plugin, shallowly embedded in Lean 4.

The embedding models the POSIX configuration of Node's `path` module
(`path.sep = "/"`), which is the platform all of the spec's concrete
examples use.  Each definition carries a doc comment pointing at the
TypeScript source it was translated from.  String manipulation is done
over `List Char` with structural recursion, and loops are written with an
explicit fuel argument where needed, so that every definition is
evaluable by the kernel on concrete inputs.
-/

namespace McpTools

/-! ## String helpers (models of the JS string operations used) -/

/-- Split a character list on a separator character: model of JS
`str.split(sep)` for a one-character separator. `splitChar c "" = [""]`,
matching JS. -/
def splitChar (c : Char) : List Char → List (List Char)
  | [] => [[]]
  | ch :: rest =>
    match splitChar c rest with
    | [] => [[ch]]
    | g :: gs => if ch = c then [] :: g :: gs else (ch :: g) :: gs

/-- JS `filepath.split("/")` as a `String` function. -/
def jsSplitSlash (s : String) : List String :=
  (splitChar '/' s.data).map String.mk

/-- Join with a separator: model of `Array.prototype.join` /
`String.intercalate` on the result segments. -/
def joinWith (sep : String) : List String → String
  | [] => ""
  | [x] => x
  | x :: y :: rest => x ++ sep ++ joinWith sep (y :: rest)

/-- Join character-list groups with a separator character (used to
re-assemble the part of a version string after its first `-`). -/
def joinChar (c : Char) : List (List Char) → List Char
  | [] => []
  | [x] => x
  | x :: y :: rest => x ++ c :: joinChar c (y :: rest)

/-- Model of `path.isAbsolute` on POSIX / JS `startsWith("/")`. -/
def strStartsWith (s p : String) : Bool :=
  p.data.isPrefixOf s.data

/-- JS truthiness of an optional string (`undefined` and `""` are falsy). -/
def jsTruthyStr (s : Option String) : Bool :=
  match s with
  | none => false
  | some s => s ≠ ""

/-! ## PathResolver: duplicate-segment normalization

Two implementations exist in the repository:
* `normalizeDuplicateSegments` in `utils/normalizePath.ts` — forward scan
  comparing the upcoming window against the window right after it;
* `removeDuplicatePathSegments` in `services/status.ts` — scan comparing
  the tail of the already-produced output against the upcoming window.

The scans are written with an explicit fuel argument (any fuel at least
the length of the segment list gives the same result, proved below) so
that concrete instances reduce in the kernel.
-/

/-- Condition checked by the inner `while` loop of
`normalizeDuplicateSegments` at window length `L` on the remaining
segment list `r` (the JS loop guard `patternLength <= (parts.length - i)/2`
is `2*L ≤ r.length` on integers, and the body compares
`parts.slice(i, i+L)` with `parts.slice(i+L, i+2L)`). -/
def hasRepeatAt (r : List String) (L : Nat) : Bool :=
  decide (1 ≤ L) && decide (2 * L ≤ r.length) &&
    decide (r.take L = (r.drop L).take L)

/-- The smallest window length `L ≥ 1` with `2*L ≤ r.length` whose first
copy equals its second copy, exactly as the JS `while (patternLength <= …)`
loop finds it (trying `L = 1, 2, …` in order). `List.range` starts at `0`,
which `hasRepeatAt` rejects. -/
def findPattern (r : List String) : Option Nat :=
  (List.range (r.length + 1)).find? (hasRepeatAt r)

/-- Fueled segment-level core of `normalizeDuplicateSegments`
(`utils/normalizePath.ts`, the `while (i < parts.length)` loop): at each
position, if a repeated window starts here, skip one copy of it and
rescan; otherwise emit the current segment and advance. -/
def normSegsF : Nat → List String → List String
  | _, [] => []
  | 0, l => l
  | fuel + 1, x :: rest =>
    match findPattern (x :: rest) with
    | some L => normSegsF fuel ((x :: rest).drop L)
    | none => x :: normSegsF fuel rest

/-- Segment-level duplicate-collapse scan of `normalizeDuplicateSegments`,
with fuel fixed to the list length (which always suffices). -/
def normSegs (l : List String) : List String :=
  normSegsF l.length l

/-- Embedding of `normalizeDuplicateSegments` from
`utils/normalizePath.ts` (POSIX `path.sep`):
record `path.isAbsolute`, split on `/` dropping empty segments, run the
duplicate-collapse scan, rejoin, restore the leading `/`. -/
def normalizeDuplicateSegments (filepath : String) : String :=
  let isAbsolute := strStartsWith filepath "/"
  let parts := (jsSplitSlash filepath).filter (fun p => p ≠ "")
  let result := joinWith "/" (normSegs parts)
  if isAbsolute then "/" ++ result else result

/-- The last `n` elements of a list: JS `normalized.slice(-len)`. -/
def lastN (l : List String) (n : Nat) : List String :=
  l.drop (l.length - n)

/-- Duplicate-window search of `removeDuplicatePathSegments`
(`services/status.ts`): smallest `len` in `1 … min normalized.length
rest.length` with `normalized.slice(-len)` equal to the next `len`
upcoming segments. -/
def rdpsFind (normalized rest : List String) : Option Nat :=
  (List.range (min normalized.length rest.length + 1)).find?
    (fun len => decide (1 ≤ len) && decide (lastN normalized len = rest.take len))

/-- Fueled loop body of `removeDuplicatePathSegments`
(`services/status.ts`): `normalized` is the output built so far, `i` the
current index into the original split. Empty segments other than the very
first are dropped; for a non-empty segment at `i > 0`, if the tail of
`normalized` reappears as the upcoming window the whole window is skipped
(`i += len - 1; continue`); otherwise the segment is pushed. Fuel equal
to the number of remaining segments always suffices. -/
def rdpsGoF : Nat → List String → Nat → List String → List String
  | _, normalized, _, [] => normalized
  | 0, normalized, _, rest => normalized ++ rest
  | fuel + 1, normalized, i, part :: rest =>
    if part = "" ∧ i ≠ 0 then rdpsGoF fuel normalized (i + 1) rest
    else if 0 < i ∧ part ≠ "" then
      match rdpsFind normalized (part :: rest) with
      | some len => rdpsGoF fuel normalized (i + len) ((part :: rest).drop len)
      | none => rdpsGoF fuel (normalized ++ [part]) (i + 1) rest
    else rdpsGoF fuel (normalized ++ [part]) (i + 1) rest

/-- Model of Node's `path.join(...parts)` on POSIX for segments that
contain no separator: empty components are skipped and the rest are
joined with `/` (the source only ever passes plain path segments). -/
def joinSegs (parts : List String) : String :=
  joinWith "/" (parts.filter (fun p => p ≠ ""))

/-- Embedding of `removeDuplicatePathSegments` from `services/status.ts`
(POSIX `path.sep`): split on `/` (keeping the leading empty root marker),
run the scan, then re-assemble handling the root special cases. -/
def removeDuplicatePathSegments (filepath : String) : String :=
  let parts := jsSplitSlash filepath
  let normalized := rdpsGoF parts.length [] 0 parts
  if normalized = [] then "/"
  else if normalized = [""] then "/"
  else
    let result := joinSegs normalized
    if normalized.headD "x" = "" ∧ ¬ strStartsWith result "/" then "/" ++ result
    else result

/-- A segment list with no repeated adjacent window of any length:
no window of length `L ≥ 1` starting at index `i` is immediately followed
by an identical window. Stated with bounded quantifiers so it is
decidable on concrete lists. -/
def noAdjRepeat (l : List String) : Prop :=
  ∀ i ∈ List.range l.length, ∀ L ∈ List.range (l.length + 1),
    1 ≤ L → i + 2 * L ≤ l.length →
      (l.drop i).take L ≠ (l.drop (i + L)).take L

instance noAdjRepeat.decidable (l : List String) : Decidable (noAdjRepeat l) := by
  unfold noAdjRepeat
  infer_instance

/-! ## PlatformResolver (`services/install.ts`, `getPlatform` / `getArch`)

The overrides come from `(plugin as any).settings`; a JS `if (x)` truthy
check is modelled as "present and non-empty".
-/

/-- The `switch (os.platform())` fallback of `getPlatform`. -/
def detectPlatform (osPlatform : String) : String :=
  if osPlatform = "darwin" then "macos"
  else if osPlatform = "win32" then "windows"
  else "linux"

/-- Embedding of `getPlatform` (`services/install.ts` lines 12–31):
a truthy `settings.customPlatform` is returned as-is, otherwise the
detected OS is mapped through the `switch`. -/
def getPlatform (customPlatform : Option String) (osPlatform : String) : String :=
  match customPlatform with
  | some c => if c ≠ "" then c else detectPlatform osPlatform
  | none => detectPlatform osPlatform

/-- Embedding of `getArch` (`services/install.ts` lines 33–44):
a truthy `settings.customArch` is returned as-is, otherwise the detected
CPU value is returned unchanged — the source is `return os.arch() as Arch`,
a pure type cast with no value mapping. -/
def getArch (customArch : Option String) (osArch : String) : String :=
  match customArch with
  | some c => if c ≠ "" then c else osArch
  | none => osArch

/-! ## Version-check subprocess invocation (`services/status.ts`) -/

/-- Options of a `child_process.exec` call that matter for hang behavior:
Node applies a kill timer only when a positive `timeout` option is given. -/
structure ExecInvocation where
  command : String
  timeoutMs : Option Nat

/-- Embedding of the server-version query in `getInstallationStatus`:
`execAsync(versionCommand)` with
`versionCommand = "\x22" + installPath.path + "\x22 --version"` and
`execAsync = promisify(exec)`. The call passes no options object, so no
timeout is configured. -/
def versionCheckInvocation (binaryPath : String) : ExecInvocation :=
  { command := "\"" ++ binaryPath ++ "\" --version", timeoutMs := none }

/-! ## Downloader (`services/install.ts`, `downloadFile`)

The header/redirect phase is a function of an abstract HTTP world (a map
from URL to response head); the streaming phase is a function of the
sequence of stream events delivered by Node. Both are written to be
kernel-evaluable on concrete inputs.
-/

/-- The response head `downloadFile` inspects: `response.statusCode ?? 0`,
`response.headers.location`, `response.headers["content-length"]`. -/
structure HttpResponse where
  statusCode : Nat
  location : Option String
  contentLength : Option String

/-- Model of `parseInt(s, 10)` for the digit strings that appear in a
`Content-Length` header: leading spaces skipped, then a non-empty digit
prefix is required (`none` models `NaN`). -/
def jsParseIntNat (s : String) : Option Nat :=
  let t := s.data.dropWhile (fun c => c = ' ')
  let ds := t.takeWhile Char.isDigit
  if ds = [] then none
  else some (ds.foldl (fun acc c => 10 * acc + (c.toNat - 48)) 0)

/-- Terminal outcome of the header/redirect phase of `downloadFile`. -/
inductive HeaderOutcome where
  | tooManyRedirects
  | httpError (code : Nat)
  | noLocationHeader (code : Nat)
  | unexpectedStatus (code : Nat)
  | invalidContentLength
  | streamed (totalBytes : Nat)
deriving DecidableEq

/-- Fueled header/redirect phase of `downloadFile`
(`services/install.ts` lines 88–166), also returning the list of URLs
actually requested, in order. The fuel argument only serves termination;
the wrapper `downloadHeaders` passes `7 - redirects`, which the
`redirects > 5` guard makes sufficient, so the `fuel = 0` branch is dead. -/
def downloadHeadersF : Nat → (String → HttpResponse) → String → Nat →
    HeaderOutcome × List String
  | fuel, world, url, redirects =>
    if redirects > 5 then (.tooManyRedirects, [])
    else
      match fuel with
      | 0 => (.tooManyRedirects, [])
      | fuel + 1 =>
        let r := world url
        if r.statusCode ≥ 400 then (.httpError r.statusCode, [url])
        else if r.statusCode = 302 ∨ r.statusCode = 301 then
          match r.location with
          | none => (.noLocationHeader r.statusCode, [url])
          | some loc =>
            let rest := downloadHeadersF fuel world loc (redirects + 1)
            (rest.1, url :: rest.2)
        else if r.statusCode ≠ 200 then (.unexpectedStatus r.statusCode, [url])
        else if jsTruthyStr r.contentLength then
          match jsParseIntNat (r.contentLength.getD "") with
          | none => (.invalidContentLength, [url])
          | some n => (.streamed n, [url])
        else (.streamed 0, [url])

/-- Header/redirect phase of `downloadFile` at redirect depth
`redirects`. -/
def downloadHeaders (world : String → HttpResponse) (url : String)
    (redirects : Nat) : HeaderOutcome × List String :=
  downloadHeadersF (7 - redirects) world url redirects

/-- Events the streaming phase of `downloadFile` reacts to: a `data`
chunk (with its `Buffer.isBuffer` validity and byte length), a
write-stream `error`, a response `error`, and the write stream `finish`. -/
inductive StreamEvent where
  | chunk (isBuffer : Bool) (size : Nat)
  | fileError
  | responseError
  | finish
deriving DecidableEq

/-- How the subscriber saw the download end. -/
inductive StreamTerminal where
  | errored
  | completed
deriving DecidableEq

/-- One emitted progress notification
(`subscriber.next({bytesReceived, totalBytes, percentage})`). -/
structure DownloadProgress where
  bytesReceived : Nat
  totalBytes : Nat
  percentage : ℚ

/-- JS `Math.round(q * 100) / 100` (round to 2 decimals; `Math.round`
rounds half toward positive infinity, as does `round` on `ℚ` for the
nonnegative values that occur here). -/
def roundTo2 (q : ℚ) : ℚ :=
  (round (q * 100) : ℤ) / 100

/-- Result of the streaming phase: progress events emitted, terminal
signal delivered to the subscriber (`none` while still in flight), and
whether the destination file still exists. -/
structure StreamResult where
  emitted : List DownloadProgress
  terminal : Option StreamTerminal
  fileExists : Bool

/-- Streaming phase of `downloadFile` (`services/install.ts` lines
168–229) after the write stream for the destination has been created,
processing stream events in order with `downloadedBytes` accumulated:
a valid chunk emits progress; an invalid chunk, a file-stream error or a
response error run `cleanup(err)` — destroy the stream and `unlink` the
destination (the unlink is modelled as succeeding) — and deliver
`subscriber.error`; `finish` runs `cleanup()` (close + chmod, file kept)
and delivers `subscriber.complete`. -/
def runStream (totalBytes : Nat) : Nat → List StreamEvent → StreamResult
  | _, [] => ⟨[], none, true⟩
  | downloadedBytes, e :: rest =>
    match e with
    | .chunk true n =>
      let dl := downloadedBytes + n
      let r := runStream totalBytes dl rest
      ⟨⟨dl, totalBytes,
          roundTo2 (if totalBytes = 0 then 0 else (dl : ℚ) / (totalBytes : ℚ) * 100)⟩
        :: r.emitted,
        r.terminal, r.fileExists⟩
    | .chunk false _ => ⟨[], some .errored, false⟩
    | .fileError => ⟨[], some .errored, false⟩
    | .responseError => ⟨[], some .errored, false⟩
    | .finish => ⟨[], some .completed, true⟩

/-- A six-deep redirect chain: `u0 → u1 → … → u5 → u6`, with `u6`
answering 200. -/
def chainWorld : String → HttpResponse := fun u =>
  if u = "u0" then ⟨302, some "u1", none⟩
  else if u = "u1" then ⟨302, some "u2", none⟩
  else if u = "u2" then ⟨302, some "u3", none⟩
  else if u = "u3" then ⟨302, some "u4", none⟩
  else if u = "u4" then ⟨302, some "u5", none⟩
  else if u = "u5" then ⟨302, some "u6", none⟩
  else ⟨200, none, none⟩

/-- A single 302 redirect from `a` to `b`; everything else answers 200. -/
def redirWorld : String → HttpResponse := fun u =>
  if u = "a" then ⟨302, some "b", none⟩ else ⟨200, none, none⟩

/-- A 301 response without a `Location` header at `a`. -/
def noLocWorld : String → HttpResponse := fun u =>
  if u = "a" then ⟨301, none, none⟩ else ⟨200, none, none⟩

/-! ## Semantic versions (the `semver` package functions used:
`clean`, `valid`, `lt`)

`getInstallationStatus` compares versions with `lt(serverVersion,
pluginVersion)` after parsing both through `clean`. The comparison order
is the one of semver.org §11: numeric triple lexicographically, then a
version with a prerelease sorts below the same triple without one, then
prerelease identifiers componentwise (numeric before alphanumeric,
numeric compared as numbers, alphanumeric in ASCII order, a shorter
prefix first).
-/

/-- A prerelease identifier: numeric or alphanumeric. -/
inductive PreId where
  | num (n : Nat)
  | str (s : String)
deriving DecidableEq

/-- A parsed semantic version (build metadata is dropped by `clean`). -/
structure SemVer where
  major : Nat
  minor : Nat
  patch : Nat
  pre : List PreId
deriving DecidableEq

/-- Ordering of two prerelease identifiers (semver.org §11.4.1–11.4.3). -/
def cmpPreId : PreId → PreId → Ordering
  | .num a, .num b => compare a b
  | .num _, .str _ => .lt
  | .str _, .num _ => .gt
  | .str a, .str b => compare a b

/-- Ordering of prerelease identifier lists (semver.org §11.4.4: a
shorter list that is a prefix of the other sorts first). -/
def cmpPreList : List PreId → List PreId → Ordering
  | [], [] => .eq
  | [], _ :: _ => .lt
  | _ :: _, [] => .gt
  | a :: as, b :: bs =>
    match cmpPreId a b with
    | .eq => cmpPreList as bs
    | o => o

/-- Full semver ordering (semver.org §11): triple first; with equal
triples a prerelease version sorts below the release. -/
def cmpSemVer (a b : SemVer) : Ordering :=
  match compare a.major b.major with
  | .eq =>
    match compare a.minor b.minor with
    | .eq =>
      match compare a.patch b.patch with
      | .eq =>
        match a.pre, b.pre with
        | [], [] => .eq
        | [], _ :: _ => .gt
        | _ :: _, [] => .lt
        | _ :: _, _ :: _ => cmpPreList a.pre b.pre
      | o => o
    | o => o
  | o => o

/-- `semver.lt`. -/
def semverLt (a b : SemVer) : Bool :=
  cmpSemVer a b == Ordering.lt

/-- Value of a non-empty digit string. -/
def digitsToNat (l : List Char) : Nat :=
  l.foldl (fun acc c => 10 * acc + (c.toNat - 48)) 0

/-- A semver numeric identifier: non-empty digits without a leading zero
(except `0` itself). -/
def parseNumId (s : String) : Option Nat :=
  match s.data with
  | [] => none
  | c :: rest =>
    if (c :: rest).all Char.isDigit then
      if c = '0' ∧ rest ≠ [] then none
      else some (digitsToNat (c :: rest))
    else none

/-- A semver prerelease identifier: numeric if all digits, otherwise
alphanumeric over `[0-9A-Za-z-]`. -/
def parsePreId (s : String) : Option PreId :=
  match s.data with
  | [] => none
  | l =>
    if l.all Char.isDigit then (parseNumId s).map PreId.num
    else if l.all (fun c => c.isAlphanum ∨ c = '-') then some (.str s)
    else none

/-- Model of `valid(clean(version))` from the `semver` package: trim,
strip leading `=`/`v`, drop build metadata after `+`, split the core
`major.minor.patch` from the prerelease after the first `-`, and parse
each piece strictly. Returns the parsed version, or `none` exactly when
the library returns `null`. -/
def parseCleanSemver (s : String) : Option SemVer :=
  let t := (s.data.dropWhile Char.isWhitespace).reverse.dropWhile Char.isWhitespace
  let t := t.reverse.dropWhile (fun c => c = '=' ∨ c = 'v')
  let t := (splitChar '+' t).headD []
  let (core, pre) :=
    match splitChar '-' t with
    | [] => (([] : List Char), (none : Option (List (List Char))))
    | c :: rest => (c, if rest = [] then none else some rest)
  match (splitChar '.' core).map String.mk with
  | [ma, mi, pa] =>
    match parseNumId ma, parseNumId mi, parseNumId pa with
    | some a, some b, some c =>
      match pre with
      | none => some ⟨a, b, c, []⟩
      | some groups =>
        match ((splitChar '.' (joinChar '-' groups)).map String.mk).mapM parsePreId with
        | some ids => some ⟨a, b, c, ids⟩
        | none => none
    | _, _, _ => none
  | _ => none

/-! ## InstallationStatusService (`services/status.ts`,
`getInstallationStatus`)

The effectful inputs are abstracted: `manifestVersion` is
`plugin.manifest.version`; `apiKey` is `plugin.getLocalRestApiKey()`;
`installPath` is the result of `getInstallPath` (`Except.error` for its
`{error}` return); `executableOk` tells whether
`fsp.access(installPath.path, X_OK)` succeeded; `execStdout` is the
stdout of `"<path>" --version` when the subprocess succeeded, `none` when
it failed (non-zero exit, spawn failure).
-/

/-- The five states of `InstallationStatus` in `types.ts`
(`"error" | "no api key" | "not installed" | "outdated" | "installed"`). -/
inductive InstallState where
  | error
  | noApiKey
  | notInstalled
  | outdated
  | installed
deriving DecidableEq

/-- State plus the `versions` record the service reports. -/
structure StatusResult where
  state : InstallState
  pluginVersion : Option SemVer
  serverVersion : Option SemVer
deriving DecidableEq

/-- Embedding of `getInstallationStatus` (`services/status.ts` lines
467–528): invalid plugin version → error; missing/empty API key →
no-api-key; install-path error → error; binary not executable →
not-installed; version query failing or unparsable → error; otherwise
`lt(serverVersion, pluginVersion) ? "outdated" : "installed"`. The
source's `clean(stdout.trim())` is modelled by `parseCleanSemver`, which
itself trims. -/
def getInstallationStatus (manifestVersion : String) (apiKey : Option String)
    (installPath : Except String String) (executableOk : Bool)
    (execStdout : Option String) : StatusResult :=
  match parseCleanSemver manifestVersion with
  | none => ⟨.error, none, none⟩
  | some pv =>
    if ¬ jsTruthyStr apiKey then ⟨.noApiKey, some pv, none⟩
    else
      match installPath with
      | .error _ => ⟨.error, some pv, none⟩
      | .ok _ =>
        if ¬ executableOk then ⟨.notInstalled, some pv, none⟩
        else
          match execStdout with
          | none => ⟨.error, some pv, none⟩
          | some out =>
            match parseCleanSemver out with
            | none => ⟨.error, some pv, none⟩
            | some sv =>
              ⟨if semverLt sv pv then .outdated else .installed, some pv, some sv⟩

/-! ## ConfigReconciler (`claudeConfig.ts`, `updateClaudeConfig`)

The parsed JSON document is modelled as a value tree; objects are
association lists in key order (JSON.parse gives objects with unique
keys, and `JSON.stringify(config, null, 2)` writes the keys back in that
order, so reading the file back parses to the same value — the
write/read round trip is the identity at this level).
-/

/-- A parsed JSON value. -/
inductive Json where
  | null
  | bool (b : Bool)
  | num (q : ℚ)
  | str (s : String)
  | arr (elems : List Json)
  | obj (fields : List (String × Json))

/-- Property lookup on an object with unique keys. -/
def getEntry {α : Type} : List (String × α) → String → Option α
  | [], _ => none
  | p :: rest, k => if p.1 == k then some p.2 else getEntry rest k

/-- JS property assignment on an object with unique keys: an existing key
keeps its position and gets the new value; a new key is appended. -/
def setEntry {α : Type} : List (String × α) → String → α → List (String × α)
  | [], k, v => [(k, v)]
  | p :: rest, k, v =>
    if p.1 == k then (k, v) :: rest else p :: setEntry rest k v

/-- Property lookup through a `Json` object value. -/
def jsonGet : Json → String → Option Json
  | .obj fields, k => getEntry fields k
  | _, _ => none

/-- The keys of a `Json` object value, in order. -/
def objKeys : Json → List String
  | .obj fields => fields.map Prod.fst
  | _ => []

/-- JS truthiness of an optional JSON value, for
`config.mcpServers = config.mcpServers || {}` (`undefined`, `null`,
`false`, `0` and `""` are falsy). -/
def jsTruthyJson : Option Json → Bool
  | none => false
  | some .null => false
  | some (.bool b) => b
  | some (.num q) => decide (q ≠ 0)
  | some (.str s) => s ≠ ""
  | some (.arr _) => true
  | some (.obj _) => true

/-- The fixed server id used by `updateClaudeConfig`. -/
def SERVER_ID : String := "obsidian-mcp-tools"

/-- The settings fields `updateClaudeConfig` reads from
`(plugin as any).settings`. -/
structure ConfigSettings where
  customCommand : Option String
  customHost : Option String
  customEnvVars : Option (List (String × String))

/-- The `command` chosen by `updateClaudeConfig`:
`settings?.customCommand || serverPath` (JS `||`, so an empty custom
command falls back to the server path). -/
def commandOf (settings : ConfigSettings) (serverPath : String) : String :=
  match settings.customCommand with
  | some c => if c ≠ "" then c else serverPath
  | none => serverPath

/-- One `Object.assign` source pair applied to the env map (an assignment
of one own enumerable property). -/
def assignPair (e : List (String × Option String)) (kv : String × String) :
    List (String × Option String) :=
  setEntry e kv.1 (some kv.2)

/-- The `env` record built by `updateClaudeConfig`: starts as
`{OBSIDIAN_API_KEY: apiKey}` (`apiKey` may be `undefined`), adds
`OBSIDIAN_HOST` when `settings?.customHost` is truthy, then
`Object.assign`s `settings?.customEnvVars` over it in order. -/
def buildEnv (settings : ConfigSettings) (apiKey : Option String) :
    List (String × Option String) :=
  let env := [("OBSIDIAN_API_KEY", apiKey)]
  let env :=
    match settings.customHost with
    | some h => if h ≠ "" then setEntry env "OBSIDIAN_HOST" (some h) else env
    | none => env
  match settings.customEnvVars with
  | some vars => vars.foldl assignPair env
  | none => env

/-- The server entry `{command, env}` as it appears in the written file:
`JSON.stringify` drops `env` keys whose value is `undefined`. -/
def serverEntryJson (settings : ConfigSettings) (serverPath : String)
    (apiKey : Option String) : Json :=
  .obj [("command", .str (commandOf settings serverPath)),
    ("env", .obj ((buildEnv settings apiKey).filterMap
      (fun kv => kv.2.map (fun v => (kv.1, Json.str v)))))]

/-- Embedding of `updateClaudeConfig` (`claudeConfig.ts` lines 55–118) at
the parsed-document level. `fileContent` is the parsed existing file
(`none` models ENOENT, which falls back to `{ mcpServers: {} }`; a
malformed file throws before this point). A parsed document that is not
an object, or whose truthy `mcpServers` is not an object map, makes the
strict-mode property assignments throw (`Except.error`); otherwise
`mcpServers` is defaulted with `config.mcpServers || {}` and the entry is
upserted under `SERVER_ID`, leaving everything else untouched. -/
def updateClaudeConfig (fileContent : Option Json) (settings : ConfigSettings)
    (serverPath : String) (apiKey : Option String) : Except String Json :=
  let entry := serverEntryJson settings serverPath apiKey
  match fileContent with
  | none => .ok (.obj [("mcpServers", .obj [(SERVER_ID, entry)])])
  | some (.obj fields) =>
    let msVal := jsonGet (.obj fields) "mcpServers"
    if jsTruthyJson msVal then
      match msVal with
      | some (.obj ms) =>
        .ok (.obj (setEntry fields "mcpServers" (.obj (setEntry ms SERVER_ID entry))))
      | _ => .error "mcpServers is not an object map"
    else
      .ok (.obj (setEntry fields "mcpServers" (.obj (setEntry [] SERVER_ID entry))))
  | some _ => .error "parsed config is not a JSON object"

/-- A pre-existing server entry that carries an `args` array. -/
def demoEntryOld : Json :=
  .obj [("command", .str "old-command"), ("args", .arr [.str "--flag"]),
    ("env", .obj [])]

/-- A pre-existing `mcpServers` map with a foreign entry and an old entry
under this plugin's id. -/
def demoMs : List (String × Json) :=
  [("other-server", .obj [("command", .str "other")]), (SERVER_ID, demoEntryOld)]

/-- A pre-existing parsed config document with an unrelated top-level
key. -/
def demoFields : List (String × Json) :=
  [("globalShortcut", .str "Ctrl+Space"), ("mcpServers", .obj demoMs)]

/-- Concrete settings exercising every override. -/
def demoSettings : ConfigSettings :=
  ⟨some "bun", some "https://localhost:27124", some [("EXTRA", "1")]⟩

end McpTools

namespace McpTools

/-! ## Helper lemmas -/

theorem findPattern_pos {r : List String} {L : Nat}
    (h : findPattern r = some L) : 1 ≤ L := by
  have hp := List.find?_some h
  unfold hasRepeatAt at hp
  simp only [Bool.and_eq_true, decide_eq_true_eq] at hp
  exact hp.1.1

/-- Any fuel at least the list length computes `normSegs`. -/
theorem normSegsF_fuel : ∀ f l, l.length ≤ f → normSegsF f l = normSegs l := by
  intro f
  induction f using Nat.strong_induction_on with
  | _ f ih =>
    intro l hl
    match f, l with
    | f, [] =>
      cases f <;> rfl
    | f + 1, x :: rest =>
      simp only [List.length_cons] at hl
      show (match findPattern (x :: rest) with
        | some L => normSegsF f ((x :: rest).drop L)
        | none => x :: normSegsF f rest) = normSegs (x :: rest)
      have hr : normSegs (x :: rest) = (match findPattern (x :: rest) with
          | some L => normSegsF rest.length ((x :: rest).drop L)
          | none => x :: normSegsF rest.length rest) := rfl
      rw [hr]
      cases hfp : findPattern (x :: rest) with
      | some L =>
        dsimp only
        have hL1 : 1 ≤ L := findPattern_pos hfp
        have hlen : ((x :: rest).drop L).length ≤ rest.length := by
          simp only [List.length_drop, List.length_cons]
          omega
        rw [ih f (by omega) _ (le_trans hlen (by omega))]
        rw [ih rest.length (by omega) _ hlen]
      | none =>
        dsimp only
        rw [ih f (by omega) rest (by omega)]
        rw [ih rest.length (by omega) rest (by omega)]

/-- Unfolding lemma for `normSegs` when a repeated window is found. -/
theorem normSegs_skip {x : String} {rest : List String} {L : Nat}
    (h : findPattern (x :: rest) = some L) :
    normSegs (x :: rest) = normSegs ((x :: rest).drop L) := by
  have h1 : normSegs (x :: rest) = (match findPattern (x :: rest) with
      | some L => normSegsF rest.length ((x :: rest).drop L)
      | none => x :: normSegsF rest.length rest) := rfl
  rw [h1, h]
  apply normSegsF_fuel
  simp only [List.length_drop, List.length_cons]
  have := findPattern_pos h
  omega

/-- Unfolding lemma for `normSegs` when no repeated window starts here. -/
theorem normSegs_push {x : String} {rest : List String}
    (h : findPattern (x :: rest) = none) :
    normSegs (x :: rest) = x :: normSegs rest := by
  have h1 : normSegs (x :: rest) = (match findPattern (x :: rest) with
      | some L => normSegsF rest.length ((x :: rest).drop L)
      | none => x :: normSegsF rest.length rest) := rfl
  rw [h1, h]
  rw [normSegsF_fuel rest.length rest (le_refl _)]

theorem findPattern_eq_none_of_noAdjRepeat {x : String} {rest : List String}
    (h : noAdjRepeat (x :: rest)) : findPattern (x :: rest) = none := by
  unfold findPattern
  apply List.find?_eq_none.mpr
  intro L _ hrep
  unfold hasRepeatAt at hrep
  simp only [Bool.and_eq_true, decide_eq_true_eq] at hrep
  obtain ⟨⟨h1, h2⟩, h3⟩ := hrep
  have hi : 0 ∈ List.range (x :: rest).length := by
    simp [List.mem_range]
  have hL : L ∈ List.range ((x :: rest).length + 1) := by
    simp only [List.mem_range]
    omega
  exact h 0 hi L hL h1 (by omega) (by simpa using h3)

theorem noAdjRepeat_tail {x : String} {rest : List String}
    (h : noAdjRepeat (x :: rest)) : noAdjRepeat rest := by
  intro i hi L hL h1 h2
  simp only [List.mem_range] at hi hL
  have hi2 : i + 1 ∈ List.range (x :: rest).length := by
    simp only [List.mem_range, List.length_cons]
    omega
  have hL2 : L ∈ List.range ((x :: rest).length + 1) := by
    simp only [List.mem_range, List.length_cons]
    omega
  have := h (i + 1) hi2 L hL2 h1 (by simp only [List.length_cons]; omega)
  simpa only [List.drop_succ_cons, Nat.add_right_comm] using this

/-- The duplicate-collapse scan leaves a segment list with no repeated
adjacent window unchanged. -/
theorem normSegs_of_noAdjRepeat : ∀ l : List String, noAdjRepeat l → normSegs l = l := by
  intro l
  induction l with
  | nil => intro _; rfl
  | cons x rest ih =>
    intro h
    rw [normSegs_push (findPattern_eq_none_of_noAdjRepeat h)]
    rw [ih (noAdjRepeat_tail h)]

theorem noAdjRepeat_three {x y z : String} (hxy : x ≠ y) (hyz : y ≠ z) :
    noAdjRepeat [x, y, z] := by
  intro i hi L hL h1 h2
  simp only [List.mem_range, List.length_cons, List.length_nil] at hi hL h2
  interval_cases i <;> interval_cases L <;> simp_all

theorem findPattern_xyxyz {x y z : String} (hxy : x ≠ y) :
    findPattern [x, y, x, y, z] = some 2 := by
  have h0 : hasRepeatAt [x, y, x, y, z] 0 = false := by
    simp [hasRepeatAt]
  have h1 : hasRepeatAt [x, y, x, y, z] 1 = false := by
    simp [hasRepeatAt, hxy]
  have h2 : hasRepeatAt [x, y, x, y, z] 2 = true := by
    simp [hasRepeatAt]
  unfold findPattern
  rw [show List.range ([x, y, x, y, z].length + 1) = [0, 1, 2, 3, 4, 5] from rfl]
  rw [List.find?_cons_of_neg _ (by rw [h0]; exact Bool.false_ne_true)]
  rw [List.find?_cons_of_neg _ (by rw [h1]; exact Bool.false_ne_true)]
  rw [List.find?_cons_of_pos _ h2]

/-! ### Association-list lemmas for the config document model -/

theorem getEntry_setEntry_self {α : Type} (l : List (String × α)) (k : String) (v : α) :
    getEntry (setEntry l k v) k = some v := by
  induction l with
  | nil => simp [setEntry, getEntry]
  | cons p rest ih =>
    by_cases h : p.1 = k
    · simp [setEntry, getEntry, h]
    · simp only [setEntry, getEntry, beq_iff_eq, h, if_false]
      simpa [getEntry, beq_iff_eq, h] using ih

theorem getEntry_setEntry_other {α : Type} (l : List (String × α))
    (k k2 : String) (v : α) (h : k ≠ k2) :
    getEntry (setEntry l k2 v) k = getEntry l k := by
  induction l with
  | nil => simp [setEntry, getEntry, beq_iff_eq, Ne.symm h]
  | cons p rest ih =>
    by_cases h2 : p.1 = k2
    · simp [setEntry, getEntry, beq_iff_eq, h2, Ne.symm h]
    · simp only [setEntry, getEntry, beq_iff_eq, h2, if_false]
      by_cases h3 : p.1 = k <;> simp [getEntry, beq_iff_eq, h3, ih]

theorem getEntry_setEntry_isSome {α : Type} (l : List (String × α))
    (k k2 : String) (v : α) (h : (getEntry l k).isSome = true) :
    (getEntry (setEntry l k2 v) k).isSome = true := by
  by_cases hk : k = k2
  · subst hk
    rw [getEntry_setEntry_self]
    rfl
  · rw [getEntry_setEntry_other _ _ _ _ hk]
    exact h

theorem getEntry_foldl_isSome (vars : List (String × String))
    (e : List (String × Option String)) (k : String)
    (h : (getEntry e k).isSome = true) :
    (getEntry (vars.foldl assignPair e) k).isSome = true := by
  induction vars generalizing e with
  | nil => exact h
  | cons kv t ih => exact ih _ (getEntry_setEntry_isSome _ _ _ _ h)

theorem getEntry_foldl_not_mem (vars : List (String × String))
    (e : List (String × Option String)) (k : String)
    (h : k ∉ vars.map Prod.fst) :
    getEntry (vars.foldl assignPair e) k = getEntry e k := by
  induction vars generalizing e with
  | nil => rfl
  | cons kv t ih =>
    simp only [List.map_cons, List.mem_cons] at h
    push_neg at h
    rw [List.foldl_cons, ih _ h.2]
    exact getEntry_setEntry_other _ _ _ _ h.1

theorem getEntry_foldl_mem_nodup (vars : List (String × String))
    (e : List (String × Option String)) (k : String) (v : String)
    (hnd : (vars.map Prod.fst).Nodup) (hmem : (k, v) ∈ vars) :
    getEntry (vars.foldl assignPair e) k = some (some v) := by
  induction vars generalizing e with
  | nil => cases hmem
  | cons kv t ih =>
    simp only [List.map_cons, List.nodup_cons] at hnd
    rcases List.mem_cons.mp hmem with heq | hmemt
    · subst heq
      rw [List.foldl_cons]
      rw [getEntry_foldl_not_mem t _ k hnd.1]
      exact getEntry_setEntry_self _ _ _
    · exact ih _ hnd.2 hmemt

end McpTools

namespace Claims

open McpTools

/-- C2 counterexample: the algebraic law
`resolve(prefix + B + B + suffix) = resolve(prefix + B + suffix)` fails on
both duplicate-segment normalizers at `prefix = []`, `B = [a, a, b]`,
`suffix = []`: the path `/a/a/b/a/a/b` normalizes to `/a/b/a/b`, while
`/a/a/b` normalizes to `/a/b`. -/
theorem c2_counterexample :
    normalizeDuplicateSegments "/a/a/b/a/a/b" = "/a/b/a/b" ∧
    normalizeDuplicateSegments "/a/a/b" = "/a/b" ∧
    normalizeDuplicateSegments "/a/a/b/a/a/b" ≠ normalizeDuplicateSegments "/a/a/b" ∧
    removeDuplicatePathSegments "/a/a/b/a/a/b" = "/a/b/a/b" ∧
    removeDuplicatePathSegments "/a/a/b" = "/a/b" ∧
    removeDuplicatePathSegments "/a/a/b/a/a/b" ≠ removeDuplicatePathSegments "/a/a/b" :=
  ⟨by decide, by decide, by decide, by decide, by decide, by decide⟩

/-- C2 (amended): the general identity
`resolve(prefix + B + B + suffix) = resolve(prefix + B + suffix)` does not
hold; what does hold is the claim's particular shape: for distinct
adjacent segments, a doubled two-segment block at the start collapses,
so the segment list `[x, y, x, y, z]` normalizes to `[x, y, z]`
(in particular `[home, alice, home, alice, vault]` collapses to
`[home, alice, vault]`, also at the path-string level). -/
theorem c2_duplicate_block_collapse (x y z : String) (hxy : x ≠ y) (hyz : y ≠ z) :
    normSegs [x, y, x, y, z] = [x, y, z] ∧
    normalizeDuplicateSegments "/home/alice/home/alice/vault" = "/home/alice/vault" := by
  constructor
  · rw [normSegs_skip (findPattern_xyxyz hxy)]
    exact normSegs_of_noAdjRepeat _ (noAdjRepeat_three hxy hyz)
  · decide

/-- C2 witness: the amended collapse applied at the concrete segments of
the claim's example. -/
theorem c2_witness :
    ("home" : String) ≠ "alice" ∧ ("alice" : String) ≠ "vault" ∧
    normSegs ["home", "alice", "home", "alice", "vault"] = ["home", "alice", "vault"] :=
  ⟨by decide, by decide,
    (c2_duplicate_block_collapse "home" "alice" "vault" (by decide) (by decide)).1⟩

/-- C7: path-resolution edge cases of `normalizeDuplicateSegments`
(the normalizer used by `getInstallPath`): the empty path maps to the
empty string, the root-only path `/` maps to `/`, and a segment list with
no duplicate adjacent block is left unchanged by the duplicate-collapse
scan (shown both as the general segment-level law and on a concrete
canonical path string). -/
theorem c7_edge_cases :
    normalizeDuplicateSegments "" = "" ∧
    normalizeDuplicateSegments "/" = "/" ∧
    (∀ l : List String, noAdjRepeat l → normSegs l = l) ∧
    normalizeDuplicateSegments "/home/user/vault" = "/home/user/vault" :=
  ⟨by decide, by decide, normSegs_of_noAdjRepeat, by decide⟩

/-- C7 witness: the no-duplicate law applied at a concrete segment list. -/
theorem c7_witness :
    noAdjRepeat ["home", "user", "vault"] ∧
    normSegs ["home", "user", "vault"] = ["home", "user", "vault"] :=
  ⟨by decide, c7_edge_cases.2.2.1 _ (by decide)⟩

/-- C8 counterexample: `getArch` applies no mapping to the detected CPU —
`os.arch()` values outside the `{x64, arm64}` enum (here `ia32`) are
returned verbatim, so `getArch` does not always return an enum member. -/
theorem c8_counterexample :
    getArch none "ia32" = "ia32" ∧
    ¬ (getArch none "ia32" = "x64" ∨ getArch none "ia32" = "arm64") :=
  ⟨rfl, by decide⟩

/-- C8 (amended): a non-empty override is returned as-is by both
functions; with no override, `getPlatform` maps the detected OS onto
`{windows, macos, linux}` (darwin → macos, win32 → windows, anything
else → linux) and always returns an enum member; `getArch` returns the
detected CPU value unchanged (so it lies in `{x64, arm64}` only when the
detected value already does — no mapping is applied). Neither function
has a failure mode. -/
theorem c8_platform_arch :
    (∀ c os, c ≠ "" → getPlatform (some c) os = c) ∧
    (∀ c a, c ≠ "" → getArch (some c) a = c) ∧
    (∀ os, getPlatform none os = "windows" ∨ getPlatform none os = "macos" ∨
      getPlatform none os = "linux") ∧
    getPlatform none "darwin" = "macos" ∧
    getPlatform none "win32" = "windows" ∧
    (∀ os, os ≠ "darwin" → os ≠ "win32" → getPlatform none os = "linux") ∧
    (∀ a, getArch none a = a) := by
  refine ⟨?_, ?_, ?_, by decide, by decide, ?_, ?_⟩
  · intro c os hc
    simp [getPlatform, hc]
  · intro c a hc
    simp [getArch, hc]
  · intro os
    unfold getPlatform detectPlatform
    split_ifs <;> simp
  · intro os h1 h2
    simp [getPlatform, detectPlatform, h1, h2]
  · intro a
    rfl

/-- C8 witness: overrides returned as-is and an unrecognized OS mapped to
linux, at concrete inputs. -/
theorem c8_witness :
    getPlatform (some "linux") "win32" = "linux" ∧
    getArch (some "arm64") "x64" = "arm64" ∧
    getPlatform none "freebsd" = "linux" :=
  ⟨c8_platform_arch.1 "linux" "win32" (by decide),
    c8_platform_arch.2.1 "arm64" "x64" (by decide),
    c8_platform_arch.2.2.2.2.2.1 "freebsd" (by decide) (by decide)⟩

/-- C9: the version-check subprocess invocation passes no options object
to `exec`, so no timeout is configured (Node's default of `timeout: 0`
applies no kill timer) — the code does not bound the version query,
contrary to the stated design requirement. -/
theorem c9_no_timeout (p : String) :
    (versionCheckInvocation p).timeoutMs = none ∧
    (versionCheckInvocation p).command = "\"" ++ p ++ "\" --version" :=
  ⟨rfl, rfl⟩

/-- C1: whenever the streaming phase of `downloadFile` ends with
`subscriber.error` — file-stream error, response error, or invalid chunk —
the partially-written destination file has been deleted by `cleanup`. -/
theorem c1_stream_cleanup (total dl : Nat) (events : List StreamEvent)
    (h : (runStream total dl events).terminal = some .errored) :
    (runStream total dl events).fileExists = false := by
  induction events generalizing dl with
  | nil => simp [runStream] at h
  | cons e rest ih =>
    cases e with
    | chunk isBuffer n =>
      cases isBuffer with
      | true =>
        simp only [runStream] at h ⊢
        exact ih _ h
      | false => rfl
    | fileError => rfl
    | responseError => rfl
    | finish => simp [runStream] at h

/-- C1 witness: a response error after a valid 10-byte chunk ends with
the error surfaced and the destination file gone. -/
theorem c1_witness :
    (runStream 100 0 [.chunk true 10, .responseError]).terminal = some .errored ∧
    (runStream 100 0 [.chunk true 10, .responseError]).fileExists = false :=
  ⟨by decide, c1_stream_cleanup 100 0 _ (by decide)⟩

/-- C5: a 301/302 response with a `Location` header at redirect depth at
most 5 performs exactly one recursive download of that location at depth
`+1`; a 301/302 without a `Location` header is a fatal error; and on a
chain of six redirects the download fails with "Too many redirects" after
requesting `u0 … u5`, never following the sixth redirect to `u6`. -/
theorem c5_redirects :
    (∀ (world : String → HttpResponse) (url loc : String) (r : Nat),
      r ≤ 5 →
      ((world url).statusCode = 301 ∨ (world url).statusCode = 302) →
      (world url).location = some loc →
      downloadHeaders world url r =
        ((downloadHeaders world loc (r + 1)).1,
          url :: (downloadHeaders world loc (r + 1)).2)) ∧
    (∀ (world : String → HttpResponse) (url : String) (r : Nat),
      r ≤ 5 →
      ((world url).statusCode = 301 ∨ (world url).statusCode = 302) →
      (world url).location = none →
      downloadHeaders world url r =
        (.noLocationHeader (world url).statusCode, [url])) ∧
    downloadHeaders chainWorld "u0" 0 =
      (.tooManyRedirects, ["u0", "u1", "u2", "u3", "u4", "u5"]) ∧
    "u6" ∉ (downloadHeaders chainWorld "u0" 0).2 := by
  refine ⟨?_, ?_, by decide, by decide⟩
  · intro world url loc r hr hst hloc
    show downloadHeadersF (7 - r) world url r = _
    rw [show 7 - r = (6 - r) + 1 from by omega]
    rw [downloadHeadersF]
    rw [if_neg (by omega)]
    dsimp only
    rw [if_neg (by rcases hst with h | h <;> omega)]
    rw [if_pos (by rcases hst with h | h
                   · exact Or.inr h
                   · exact Or.inl h)]
    rw [hloc]
    dsimp only
    show _ = ((downloadHeadersF (7 - (r + 1)) world loc (r + 1)).1,
      url :: (downloadHeadersF (7 - (r + 1)) world loc (r + 1)).2)
    rw [show 7 - (r + 1) = 6 - r from by omega]
  · intro world url r hr hst hloc
    show downloadHeadersF (7 - r) world url r = _
    rw [show 7 - r = (6 - r) + 1 from by omega]
    rw [downloadHeadersF]
    rw [if_neg (by omega)]
    dsimp only
    rw [if_neg (by rcases hst with h | h <;> omega)]
    rw [if_pos (by rcases hst with h | h
                   · exact Or.inr h
                   · exact Or.inl h)]
    rw [hloc]

/-- C5 witness: the redirect-follow equation and the missing-location
error at concrete worlds. -/
theorem c5_witness :
    downloadHeaders redirWorld "a" 0 =
      ((downloadHeaders redirWorld "b" 1).1,
        "a" :: (downloadHeaders redirWorld "b" 1).2) ∧
    downloadHeaders noLocWorld "a" 0 = (.noLocationHeader 301, ["a"]) :=
  ⟨c5_redirects.1 redirWorld "a" "b" 0 (by omega) (by decide) (by decide),
    c5_redirects.2.1 noLocWorld "a" 0 (by omega) (by decide) (by decide)⟩

/-- C3: with a parseable plugin version, a truthy API key, a resolved
install path, an executable binary and parseable version output, the
state is `outdated` exactly when the server version is semver-below the
plugin version and `installed` exactly otherwise (so equal or newer
server versions give `installed`); concretely, server `0.2.26` against
plugin `0.2.27` is `outdated` and equal versions are `installed`. -/
theorem c3_version_comparison (manifestVersion : String) (apiKey : Option String)
    (p out : String) (pv sv : SemVer)
    (hpv : parseCleanSemver manifestVersion = some pv)
    (hkey : jsTruthyStr apiKey = true)
    (hout : parseCleanSemver out = some sv) :
    ((getInstallationStatus manifestVersion apiKey (Except.ok p) true
        (some out)).state = InstallState.outdated ↔ semverLt sv pv = true) ∧
    ((getInstallationStatus manifestVersion apiKey (Except.ok p) true
        (some out)).state = InstallState.installed ↔ semverLt sv pv = false) ∧
    (getInstallationStatus "0.2.27" (some "key") (Except.ok "/bin/mcp-server") true
        (some "0.2.26\n")).state = InstallState.outdated ∧
    (getInstallationStatus "0.2.27" (some "key") (Except.ok "/bin/mcp-server") true
        (some "0.2.27")).state = InstallState.installed := by
  refine ⟨?_, ?_, by decide, by decide⟩ <;>
  · unfold getInstallationStatus
    rw [hpv]
    try dsimp only
    rw [if_neg (by simp [hkey])]
    try dsimp only
    rw [if_neg (by simp)]
    try dsimp only
    rw [hout]
    try dsimp only
    cases hlt : semverLt sv pv <;> simp [hlt]

/-- C3 witness: the comparison instantiated at server `0.2.26` versus
plugin `0.2.27` (outdated) and at equal versions (installed). -/
theorem c3_witness :
    (getInstallationStatus "0.2.27" (some "key") (Except.ok "/bin/mcp-server") true
        (some "0.2.26\n")).state = InstallState.outdated ∧
    (getInstallationStatus "0.2.27" (some "key") (Except.ok "/bin/mcp-server") true
        (some "0.2.27")).state = InstallState.installed :=
  ⟨(c3_version_comparison "0.2.27" (some "key") "/bin/mcp-server" "0.2.26\n"
      ⟨0, 2, 27, []⟩ ⟨0, 2, 26, []⟩ (by decide) (by decide) (by decide)).1.mpr (by decide),
    (c3_version_comparison "0.2.27" (some "key") "/bin/mcp-server" "0.2.27"
      ⟨0, 2, 27, []⟩ ⟨0, 2, 27, []⟩ (by decide) (by decide) (by decide)).2.1.mpr (by decide)⟩

/-- C6: when the binary is executable the result is never
`not installed`; the `not installed` state implies the executable-access
check failed; and when everything up to the binary check succeeds but the
version query fails (subprocess failure, or stdout not a semantic
version), the state is `error`. -/
theorem c6_version_failure_is_error (manifestVersion : String)
    (apiKey : Option String) (installPath : Except String String)
    (executableOk : Bool) (execStdout : Option String) :
    (executableOk = true →
      (getInstallationStatus manifestVersion apiKey installPath executableOk
        execStdout).state ≠ InstallState.notInstalled) ∧
    ((getInstallationStatus manifestVersion apiKey installPath executableOk
        execStdout).state = InstallState.notInstalled → executableOk = false) ∧
    (∀ pv, parseCleanSemver manifestVersion = some pv →
      jsTruthyStr apiKey = true →
      (∃ p, installPath = Except.ok p) →
      executableOk = true →
      (execStdout = none ∨
        ∃ out, execStdout = some out ∧ parseCleanSemver out = none) →
      (getInstallationStatus manifestVersion apiKey installPath executableOk
        execStdout).state = InstallState.error) := by
  have key : executableOk = true →
      (getInstallationStatus manifestVersion apiKey installPath executableOk
        execStdout).state ≠ InstallState.notInstalled := by
    intro hex
    subst hex
    unfold getInstallationStatus
    cases parseCleanSemver manifestVersion with
    | none => simp
    | some pv =>
      try dsimp only
      by_cases hk : ¬ jsTruthyStr apiKey
      · rw [if_pos hk]
        simp
      · rw [if_neg hk]
        cases installPath with
        | error e => simp
        | ok p =>
          try dsimp only
          rw [if_neg (by simp)]
          cases execStdout with
          | none => simp
          | some out =>
            try dsimp only
            cases parseCleanSemver out with
            | none => simp
            | some sv =>
              try dsimp only
              cases hlt : semverLt sv pv <;> simp [hlt]
  refine ⟨key, ?_, ?_⟩
  · intro h
    cases hex : executableOk with
    | false => rfl
    | true => exact absurd h (key hex)
  · rintro pv hpv hk ⟨p, hip⟩ hex hbad
    subst hip
    subst hex
    unfold getInstallationStatus
    rw [hpv]
    try dsimp only
    rw [if_neg (by simp [hk])]
    try dsimp only
    rw [if_neg (by simp)]
    rcases hbad with h | ⟨out, ho, hparse⟩
    · subst h
      rfl
    · subst ho
      try dsimp only
      rw [hparse]

/-- C4: upserting the server entry into the parsed launcher document (the
written file parses back to exactly this value) starts from
`{mcpServers: {}}` when the file is missing; otherwise it stores the
entry under the fixed server id inside `mcpServers`, every other
`mcpServers` entry keeps its value, and every other top-level key keeps
its value; when `mcpServers` is present as an object the update is the
in-place `setEntry`, and when it is absent or falsy it becomes a
singleton map. -/
theorem c4_upsert_roundtrip :
    (∀ st sp ak, updateClaudeConfig none st sp ak =
      Except.ok (Json.obj [("mcpServers",
        Json.obj [(SERVER_ID, serverEntryJson st sp ak)])])) ∧
    (∀ fields ms st sp ak,
      getEntry fields "mcpServers" = some (Json.obj ms) →
      updateClaudeConfig (some (Json.obj fields)) st sp ak =
        Except.ok (Json.obj (setEntry fields "mcpServers"
          (Json.obj (setEntry ms SERVER_ID (serverEntryJson st sp ak))))) ∧
      getEntry (setEntry ms SERVER_ID (serverEntryJson st sp ak)) SERVER_ID =
        some (serverEntryJson st sp ak) ∧
      (∀ k, k ≠ SERVER_ID →
        getEntry (setEntry ms SERVER_ID (serverEntryJson st sp ak)) k =
          getEntry ms k) ∧
      (∀ k, k ≠ "mcpServers" →
        getEntry (setEntry fields "mcpServers"
          (Json.obj (setEntry ms SERVER_ID (serverEntryJson st sp ak)))) k =
          getEntry fields k)) ∧
    (∀ fields st sp ak,
      jsTruthyJson (getEntry fields "mcpServers") = false →
      updateClaudeConfig (some (Json.obj fields)) st sp ak =
        Except.ok (Json.obj (setEntry fields "mcpServers"
          (Json.obj [(SERVER_ID, serverEntryJson st sp ak)]))) ∧
      (∀ k, k ≠ "mcpServers" →
        getEntry (setEntry fields "mcpServers"
          (Json.obj [(SERVER_ID, serverEntryJson st sp ak)])) k =
          getEntry fields k)) := by
  refine ⟨fun st sp ak => rfl, ?_, ?_⟩
  · intro fields ms st sp ak hms
    refine ⟨?_, getEntry_setEntry_self _ _ _,
      fun k hk => getEntry_setEntry_other _ _ _ _ hk,
      fun k hk => getEntry_setEntry_other _ _ _ _ hk⟩
    unfold updateClaudeConfig
    dsimp only [jsonGet]
    rw [hms]
    rw [if_pos (show jsTruthyJson (some (Json.obj ms)) = true from rfl)]
  · intro fields st sp ak hfalsy
    refine ⟨?_, fun k hk => getEntry_setEntry_other _ _ _ _ hk⟩
    unfold updateClaudeConfig
    dsimp only [jsonGet]
    rw [if_neg (by rw [hfalsy]; exact Bool.false_ne_true)]
    rfl

/-- C4 witness: round-trip facts at a concrete pre-existing document with
an unrelated top-level key and a foreign server entry. -/
theorem c4_witness :
    updateClaudeConfig (some (Json.obj demoFields)) demoSettings "/p/mcp-server"
      (some "KEY") =
      Except.ok (Json.obj (setEntry demoFields "mcpServers"
        (Json.obj (setEntry demoMs SERVER_ID
          (serverEntryJson demoSettings "/p/mcp-server" (some "KEY")))))) ∧
    getEntry (setEntry demoMs SERVER_ID
        (serverEntryJson demoSettings "/p/mcp-server" (some "KEY"))) SERVER_ID =
      some (serverEntryJson demoSettings "/p/mcp-server" (some "KEY")) ∧
    getEntry (setEntry demoMs SERVER_ID
        (serverEntryJson demoSettings "/p/mcp-server" (some "KEY")))
        "other-server" = getEntry demoMs "other-server" ∧
    getEntry (setEntry demoFields "mcpServers"
        (Json.obj (setEntry demoMs SERVER_ID
          (serverEntryJson demoSettings "/p/mcp-server" (some "KEY")))))
        "globalShortcut" = getEntry demoFields "globalShortcut" := by
  obtain ⟨h1, h2, h3, h4⟩ :=
    c4_upsert_roundtrip.2.1 demoFields demoMs demoSettings "/p/mcp-server"
      (some "KEY") rfl
  exact ⟨h1, h2, h3 "other-server" (by decide), h4 "globalShortcut" (by decide)⟩

/-- C10: the upserted entry consists of exactly the keys `command` and
`env` (in particular it has no `args`, so a pre-existing entry's `args`
is discarded when the entry is overwritten); the in-memory env always
contains the `OBSIDIAN_API_KEY` key; a truthy `customCommand` overrides
`serverPath`; a truthy `customHost` sets `OBSIDIAN_HOST`; and
`customEnvVars` entries override the defaults. -/
theorem c10_entry_shape :
    (∀ st sp ak, objKeys (serverEntryJson st sp ak) = ["command", "env"]) ∧
    (∀ st sp ak, jsonGet (serverEntryJson st sp ak) "args" = none) ∧
    (∀ st ak, (getEntry (buildEnv st ak) "OBSIDIAN_API_KEY").isSome = true) ∧
    (∀ st sp c, st.customCommand = some c → c ≠ "" → commandOf st sp = c) ∧
    (∀ st sp, st.customCommand = none → commandOf st sp = sp) ∧
    (∀ st ak h, st.customHost = some h → h ≠ "" → st.customEnvVars = none →
      getEntry (buildEnv st ak) "OBSIDIAN_HOST" = some (some h)) ∧
    (∀ st ak k v vars, st.customEnvVars = some vars →
      (vars.map Prod.fst).Nodup → (k, v) ∈ vars →
      getEntry (buildEnv st ak) k = some (some v)) ∧
    (∀ ms oldEntry st sp ak, getEntry ms SERVER_ID = some oldEntry →
      getEntry (setEntry ms SERVER_ID (serverEntryJson st sp ak)) SERVER_ID =
        some (serverEntryJson st sp ak)) := by
  refine ⟨fun st sp ak => rfl, fun st sp ak => rfl, ?_, ?_, ?_, ?_, ?_, ?_⟩
  · intro st ak
    have base : (getEntry [("OBSIDIAN_API_KEY", ak)] "OBSIDIAN_API_KEY").isSome
        = true := rfl
    unfold buildEnv
    cases hch : st.customHost with
    | none =>
      cases hev : st.customEnvVars with
      | none => exact base
      | some vars => exact getEntry_foldl_isSome vars _ _ base
    | some h =>
      dsimp only
      by_cases hne : h ≠ ""
      · rw [if_pos hne]
        cases hev : st.customEnvVars with
        | none => exact getEntry_setEntry_isSome _ _ _ _ base
        | some vars =>
          exact getEntry_foldl_isSome vars _ _ (getEntry_setEntry_isSome _ _ _ _ base)
      · rw [if_neg hne]
        cases hev : st.customEnvVars with
        | none => exact base
        | some vars => exact getEntry_foldl_isSome vars _ _ base
  · intro st sp c hc hne
    unfold commandOf
    rw [hc]
    exact if_pos hne
  · intro st sp hc
    unfold commandOf
    rw [hc]
  · intro st ak h hch hne hev
    unfold buildEnv
    rw [hch, hev]
    dsimp only
    rw [if_pos hne]
    exact getEntry_setEntry_self _ _ _
  · intro st ak k v vars hev hnd hmem
    unfold buildEnv
    rw [hev]
    exact getEntry_foldl_mem_nodup vars _ k v hnd hmem
  · intro ms oldEntry st sp ak _
    exact getEntry_setEntry_self _ _ _

/-- C10 witness: every override exercised at concrete settings, and the
replacement of a concrete pre-existing entry that carried `args`. -/
theorem c10_witness :
    objKeys (serverEntryJson demoSettings "/p/mcp-server" (some "KEY")) =
      ["command", "env"] ∧
    jsonGet (serverEntryJson demoSettings "/p/mcp-server" (some "KEY")) "args" =
      none ∧
    (getEntry (buildEnv demoSettings (some "KEY")) "OBSIDIAN_API_KEY").isSome =
      true ∧
    commandOf demoSettings "/p/mcp-server" = "bun" ∧
    getEntry (buildEnv ⟨none, some "https://h", none⟩ none) "OBSIDIAN_HOST" =
      some (some "https://h") ∧
    getEntry (buildEnv demoSettings (some "KEY")) "EXTRA" = some (some "1") ∧
    getEntry (setEntry demoMs SERVER_ID
        (serverEntryJson demoSettings "/p/mcp-server" (some "KEY"))) SERVER_ID =
      some (serverEntryJson demoSettings "/p/mcp-server" (some "KEY")) :=
  ⟨c10_entry_shape.1 demoSettings "/p/mcp-server" (some "KEY"),
    c10_entry_shape.2.1 demoSettings "/p/mcp-server" (some "KEY"),
    c10_entry_shape.2.2.1 demoSettings (some "KEY"),
    c10_entry_shape.2.2.2.1 demoSettings "/p/mcp-server" "bun" rfl (by decide),
    c10_entry_shape.2.2.2.2.2.1 ⟨none, some "https://h", none⟩ none "https://h"
      rfl (by decide) rfl,
    c10_entry_shape.2.2.2.2.2.2.1 demoSettings (some "KEY") "EXTRA" "1"
      [("EXTRA", "1")] rfl (by decide) (by decide),
    c10_entry_shape.2.2.2.2.2.2.2 demoMs demoEntryOld demoSettings
      "/p/mcp-server" (some "KEY") rfl⟩

/-- C6 witness: a failing and an unparsable version query both yield
`error` (never `not installed`) at concrete inputs. -/
theorem c6_witness :
    (getInstallationStatus "0.2.27" (some "k") (Except.ok "/p") true
      none).state = InstallState.error ∧
    (getInstallationStatus "0.2.27" (some "k") (Except.ok "/p") true
      (some "garbage")).state = InstallState.error ∧
    (getInstallationStatus "0.2.27" (some "k") (Except.ok "/p") true
      none).state ≠ InstallState.notInstalled :=
  ⟨(c6_version_failure_is_error "0.2.27" (some "k") (Except.ok "/p") true
      none).2.2 ⟨0, 2, 27, []⟩ (by decide) (by decide) ⟨"/p", rfl⟩ rfl (Or.inl rfl),
    (c6_version_failure_is_error "0.2.27" (some "k") (Except.ok "/p") true
      (some "garbage")).2.2 ⟨0, 2, 27, []⟩ (by decide) (by decide) ⟨"/p", rfl⟩ rfl
      (Or.inr ⟨"garbage", rfl, by decide⟩),
    (c6_version_failure_is_error "0.2.27" (some "k") (Except.ok "/p") true
      none).1 rfl⟩

end Claims
